import Mathlib

/-!
Verification of the QuantixHack voice-conversation orchestrator

Shallow embedding of the streaming pipeline and per-call state machine of the
QuantixHack repository (`app/agent_service.py`, `app/tts_service.py`,
`app/call_processor.py`, `app/crud.py`, `NER/main.py`, `NER/ner_agent.py`),
together with proofs and refutations of the specification's claims.

Texts are modelled as `List Char` (Python `str`); Python dictionaries keyed by
the call-control id are modelled as association lists; external collaborators
(the LLM, the synthesis service, Deepgram, PostgreSQL full-text search, the
claims HTTP API) enter as explicit parameters describing their responses.
-/

/-! ## Basic Python string operations over `List Char` -/

/-- First index in `s` at which `p` holds (`None` when absent). -/
def firstIdx (p : Char → Bool) : List Char → Option Nat
  | [] => none
  | c :: cs => if p c then some 0 else (firstIdx p cs).map (· + 1)

/-- Python `str.find`: index of the first occurrence of `c` in `s`, `-1` if absent. -/
def pyFind (s : List Char) (c : Char) : Int :=
  match firstIdx (fun x => x == c) s with
  | some i => (i : Int)
  | none => -1

/-- Python `str.strip()`: remove leading and trailing whitespace. -/
def pyStrip (s : List Char) : List Char :=
  ((s.dropWhile Char.isWhitespace).reverse.dropWhile Char.isWhitespace).reverse

/-- Concatenation of a list of texts (used to state round-trip properties). -/
def joinAll : List (List Char) → List Char
  | [] => []
  | s :: rest => s ++ joinAll rest

theorem joinAll_append (a b : List (List Char)) :
    joinAll (a ++ b) = joinAll a ++ joinAll b := by
  induction a with
  | nil => simp [joinAll]
  | cons s rest ih => simp [joinAll, ih]

/-! ## Sentence Segmenter (`app/agent_service.py`, `stream_llm_and_tts_eva`)

The segmentation logic of `stream_llm_and_tts_eva`: tokens are appended to
`sentence_buffer` and `full_response_text`; whenever the buffer contains one of
the sentence enders `.`, `?`, `!`, the slice up to and including the earliest
ender is cut off (`sentence_to_speak`) and its stripped form is dispatched to
`stream_tts_to_telnyx` via `asyncio.create_task`.  After the stream ends, the
stripped remainder is dispatched if non-empty.  `units` records the raw
`sentence_to_speak` slices; `dispatched` records the texts actually handed to
the synthesis adapter. -/

def sentence_enders : List Char := ['.', '?', '!']

/-- Body of the `for ender in sentence_enders` search loop of
`stream_llm_and_tts_eva`. -/
def enderFoldStep (buf : List Char) (acc : Int) (e : Char) : Int :=
  let pos := pyFind buf e
  if pos ≠ -1 ∧ (acc = -1 ∨ pos < acc) then pos else acc

/-- The `first_ender_pos` computation of `stream_llm_and_tts_eva`:
for each ender take `sentence_buffer.find(ender)` and keep the smallest
non-negative position, `-1` when no ender occurs. -/
def firstEnderPos (buf : List Char) : Int :=
  sentence_enders.foldl (enderFoldStep buf) (-1)

structure SegState where
  sentence_buffer : List Char
  full_response_text : List Char
  units : List (List Char)
  dispatched : List (List Char)
deriving DecidableEq

def initSeg : SegState := ⟨[], [], [], []⟩

/-- One iteration of the `async for chunk in response_stream` loop body. -/
def processChunk (st : SegState) (chunk : List Char) : SegState :=
  if chunk = [] then st
  else
    let buf := st.sentence_buffer ++ chunk
    let full := st.full_response_text ++ chunk
    if sentence_enders.any (fun e => buf.contains e) then
      let pos := firstEnderPos buf
      if pos ≠ -1 then
        let n := pos.toNat
        let sentence := buf.take (n + 1)
        let rest := buf.drop (n + 1)
        { sentence_buffer := rest, full_response_text := full,
          units := st.units ++ [sentence],
          dispatched := st.dispatched ++ [pyStrip sentence] }
      else
        { st with sentence_buffer := buf, full_response_text := full }
    else
      { st with sentence_buffer := buf, full_response_text := full }

/-- The whole token loop of `stream_llm_and_tts_eva`. -/
def runChunks (chunks : List (List Char)) : SegState :=
  chunks.foldl processChunk initSeg

/-- Embedding of `stream_llm_and_tts_eva`: returns `full_response_text` and the sequence of
texts dispatched to `stream_tts_to_telnyx`.  `fails = true` models an exception
raised by the generation stream after `chunks` were processed: the function
logs, skips the final flush and returns the empty string. -/
def stream_llm_and_tts_eva (chunks : List (List Char)) (fails : Bool) :
    List Char × List (List Char) :=
  if fails then ([], (runChunks chunks).dispatched)
  else
    let st := runChunks chunks
    let finalPart := pyStrip st.sentence_buffer
    (st.full_response_text,
     st.dispatched ++ if finalPart ≠ [] then [finalPart] else [])

/-! ## Characterisation of the earliest-ender search -/

/-- A character is a sentence ender (`.`, `?` or `!`). -/
def isEnder (c : Char) : Bool := (c == '.' || c == '?') || c == '!'

def optMin : Option Nat → Option Nat → Option Nat
  | none, b => b
  | some a, none => some a
  | some a, some b => some (min a b)

def optToInt : Option Nat → Int
  | none => -1
  | some n => n

theorem pyFind_eq (s : List Char) (c : Char) :
    pyFind s c = optToInt (firstIdx (· == c) s) := by
  unfold pyFind
  cases firstIdx (· == c) s <;> rfl

theorem optMin_map_succ (a b : Option Nat) :
    optMin (a.map (· + 1)) (b.map (· + 1)) = (optMin a b).map (· + 1) := by
  cases a <;> cases b <;> simp [optMin] <;> omega

theorem firstIdx_or (p q : Char → Bool) (s : List Char) :
    firstIdx (fun c => p c || q c) s = optMin (firstIdx p s) (firstIdx q s) := by
  induction s with
  | nil => rfl
  | cons c cs ih =>
      by_cases hp : p c <;> by_cases hq : q c <;>
        simp [firstIdx, hp, hq, optMin, ih] <;>
        cases firstIdx p cs <;> cases firstIdx q cs <;>
        simp [optMin, optMin_map_succ] <;> omega

theorem enderStep (a b : Option Nat) :
    (if optToInt b ≠ -1 ∧ (optToInt a = -1 ∨ optToInt b < optToInt a)
      then optToInt b else optToInt a) = optToInt (optMin a b) := by
  cases a <;> cases b <;> simp [optToInt, optMin, Nat.min_def] <;> split <;> omega

theorem enderFoldStep_eq (buf : List Char) (a : Option Nat) (c : Char) :
    enderFoldStep buf (optToInt a) c = optToInt (optMin a (firstIdx (· == c) buf)) := by
  simp only [enderFoldStep, pyFind_eq]
  exact enderStep a (firstIdx (· == c) buf)

theorem firstEnderPos_eq (buf : List Char) :
    firstEnderPos buf = optToInt (firstIdx isEnder buf) := by
  have h1 : firstIdx isEnder buf =
      optMin (optMin (firstIdx (· == '.') buf) (firstIdx (· == '?') buf))
        (firstIdx (· == '!') buf) := by
    rw [show firstIdx isEnder buf
        = firstIdx (fun c => (fun x => x == '.' || x == '?') c || (fun x => x == '!') c) buf
      from rfl]
    rw [firstIdx_or]
    rw [show firstIdx (fun c => c == '.' || c == '?') buf
        = firstIdx (fun c => (fun x => x == '.') c || (fun x => x == '?') c) buf from rfl]
    rw [firstIdx_or]
  have s2 : firstEnderPos buf =
      enderFoldStep buf (enderFoldStep buf (enderFoldStep buf (-1) '.') '?') '!' := rfl
  have s1 : enderFoldStep buf (-1) '.' = optToInt (firstIdx (· == '.') buf) := by
    rw [show (-1 : Int) = optToInt none from rfl, enderFoldStep_eq]
    rfl
  rw [s2, s1, enderFoldStep_eq, enderFoldStep_eq, h1]

theorem firstIdx_some (p : Char → Bool) (s : List Char) (i : Nat)
    (h : firstIdx p s = some i) :
    i < s.length ∧ p (s.getD i 'x') = true ∧ ∀ j, j < i → p (s.getD j 'x') = false := by
  induction s generalizing i with
  | nil => simp [firstIdx] at h
  | cons c cs ih =>
      by_cases hp : p c
      · simp [firstIdx, hp] at h
        subst h
        simp [hp]
      · simp [firstIdx, hp] at h
        obtain ⟨i', hi', rfl⟩ := h
        obtain ⟨h1, h2, h3⟩ := ih i' hi'
        refine ⟨by simpa using h1, by simpa using h2, ?_⟩
        intro j hj
        cases j with
        | zero => simpa using hp
        | succ j' => simpa using h3 j' (by omega)

/-! ## Segmenter invariants -/

theorem processChunk_full (st : SegState) (chunk : List Char) :
    (processChunk st chunk).full_response_text = st.full_response_text ++ chunk := by
  simp only [processChunk]
  split_ifs <;> simp_all

theorem processChunk_inv (st : SegState) (chunk : List Char)
    (h1 : joinAll st.units ++ st.sentence_buffer = st.full_response_text)
    (h2 : st.dispatched = st.units.map pyStrip) :
    (joinAll (processChunk st chunk).units ++ (processChunk st chunk).sentence_buffer
      = (processChunk st chunk).full_response_text)
    ∧ (processChunk st chunk).dispatched = (processChunk st chunk).units.map pyStrip := by
  simp only [processChunk]
  split_ifs with he hany hpos
  · exact ⟨h1, h2⟩
  · refine ⟨?_, by simpa using h2⟩
    simp only [joinAll_append, joinAll]
    rw [List.append_nil, List.append_assoc, List.take_append_drop, ← List.append_assoc, h1]
  · exact ⟨by rw [← List.append_assoc, h1], h2⟩
  · exact ⟨by rw [← List.append_assoc, h1], h2⟩

theorem runChunks_inv (chunks : List (List Char)) :
    (joinAll (runChunks chunks).units ++ (runChunks chunks).sentence_buffer
      = (runChunks chunks).full_response_text)
    ∧ (runChunks chunks).dispatched = (runChunks chunks).units.map pyStrip := by
  suffices h : ∀ (l : List (List Char)) (st : SegState),
      (joinAll st.units ++ st.sentence_buffer = st.full_response_text)
      → st.dispatched = st.units.map pyStrip
      → (joinAll (l.foldl processChunk st).units ++ (l.foldl processChunk st).sentence_buffer
          = (l.foldl processChunk st).full_response_text)
        ∧ (l.foldl processChunk st).dispatched = (l.foldl processChunk st).units.map pyStrip by
    exact h chunks initSeg rfl rfl
  intro l
  induction l with
  | nil => intro st a b; exact ⟨a, b⟩
  | cons c cs ih =>
      intro st a b
      obtain ⟨a', b'⟩ := processChunk_inv st c a b
      exact ih (processChunk st c) a' b'

theorem runChunks_full (chunks : List (List Char)) :
    (runChunks chunks).full_response_text = joinAll chunks := by
  suffices h : ∀ (l : List (List Char)) (st : SegState),
      (l.foldl processChunk st).full_response_text = st.full_response_text ++ joinAll l by
    simpa [initSeg] using h chunks initSeg
  intro l
  induction l with
  | nil => intro st; simp [joinAll]
  | cons c cs ih => intro st; rw [List.foldl_cons, ih, processChunk_full, joinAll,
      List.append_assoc]

/-- C4, counterexample: Feeding the single token `"A. B."` to the
segmentation loop of `stream_llm_and_tts_eva` dispatches the stripped units
`"A."` and `"B."`; re-joining them yields `"A.B."`, not the original streamed
text `"A. B."` (the space is lost because each dispatched unit is
`.strip()`-ed), so the round-trip claim fails as stated. -/
theorem c4_roundtrip_counterexample :
    joinAll (stream_llm_and_tts_eva ["A. B.".toList] false).2
      ≠ joinAll ["A. B.".toList] := by decide

/-- C4, amended: For every token stream: (1) re-joining the *raw* sentence
slices (`sentence_to_speak` before `.strip()`) in emission order together with
the unconsumed remainder reconstructs the original streamed text exactly;
(2) the units actually dispatched to synthesis are the whitespace-stripped
slices; (3) a final partial unit is dispatched iff the remainder is non-empty
after stripping (it may still contain a sentence terminator, since at most one
unit is cut per received token); (4) the returned `full_response_text` is the
original streamed text. -/
theorem c4_amended (chunks : List (List Char)) :
    joinAll (runChunks chunks).units ++ (runChunks chunks).sentence_buffer
      = joinAll chunks
    ∧ (runChunks chunks).dispatched = (runChunks chunks).units.map pyStrip
    ∧ (stream_llm_and_tts_eva chunks false).2
        = (runChunks chunks).units.map pyStrip
          ++ (if pyStrip (runChunks chunks).sentence_buffer ≠ []
              then [pyStrip (runChunks chunks).sentence_buffer] else [])
    ∧ (stream_llm_and_tts_eva chunks false).1 = joinAll chunks := by
  obtain ⟨a, b⟩ := runChunks_inv chunks
  have hf := runChunks_full chunks
  refine ⟨by rw [a, hf], b, ?_, by simp [stream_llm_and_tts_eva, hf]⟩
  simp only [stream_llm_and_tts_eva, Bool.false_eq_true, if_false, b]

/-- C8: Whenever the working buffer (previous remainder plus the newly
arrived token) contains sentence-ending characters, the emitted Response Unit
is the slice up to and including the earliest-occurring ending character, and
the remainder after that character stays in the buffer for the next unit. -/
theorem c8_earliest_ender (st : SegState) (chunk : List Char) (n : Nat)
    (hchunk : chunk ≠ [])
    (hfind : firstIdx isEnder (st.sentence_buffer ++ chunk) = some n) :
    processChunk st chunk =
      { sentence_buffer := (st.sentence_buffer ++ chunk).drop (n + 1),
        full_response_text := st.full_response_text ++ chunk,
        units := st.units ++ [(st.sentence_buffer ++ chunk).take (n + 1)],
        dispatched := st.dispatched ++ [pyStrip ((st.sentence_buffer ++ chunk).take (n + 1))] }
    ∧ isEnder ((st.sentence_buffer ++ chunk).getD n 'x') = true
    ∧ ∀ j, j < n → isEnder ((st.sentence_buffer ++ chunk).getD j 'x') = false := by
  obtain ⟨hlen, hat, hbefore⟩ := firstIdx_some isEnder (st.sentence_buffer ++ chunk) n hfind
  refine ⟨?_, hat, hbefore⟩
  have hmem : (st.sentence_buffer ++ chunk).getD n 'x' ∈ st.sentence_buffer ++ chunk := by
    rw [List.getD_eq_get _ 'x' hlen]
    exact List.get_mem _ _ _
  have hany : sentence_enders.any (fun e => (st.sentence_buffer ++ chunk).contains e)
      = true := by
    have hcases : (st.sentence_buffer ++ chunk).getD n 'x' = '.'
        ∨ (st.sentence_buffer ++ chunk).getD n 'x' = '?'
        ∨ (st.sentence_buffer ++ chunk).getD n 'x' = '!' := by
      have := hat
      simp only [isEnder, Bool.or_eq_true, beq_iff_eq] at this
      tauto
    simp only [List.any_eq_true, sentence_enders]
    rcases hcases with h | h | h <;>
      [exact ⟨'.', by simp, by rw [← h]; exact List.elem_eq_true_of_mem hmem⟩;
       exact ⟨'?', by simp, by rw [← h]; exact List.elem_eq_true_of_mem hmem⟩;
       exact ⟨'!', by simp, by rw [← h]; exact List.elem_eq_true_of_mem hmem⟩]
  have hpos : firstEnderPos (st.sentence_buffer ++ chunk) = (n : Int) := by
    rw [firstEnderPos_eq, hfind]; rfl
  simp only [processChunk, if_neg hchunk, hany, if_true, hpos]
  rw [if_pos (by omega : (n : Int) ≠ -1)]
  simp [Int.toNat_ofNat]

/-- Witness for `c8_earliest_ender` at buffer `"Hi"` + token `"? No!"`
(two pending enders: the `?` at index 2 and the `!` at index 6; the earliest
one wins). -/
theorem c8_earliest_ender_witness :
    ("? No!".toList ≠ [] ∧ firstIdx isEnder ("Hi".toList ++ "? No!".toList) = some 2)
    ∧ (processChunk ⟨"Hi".toList, "Hi".toList, [], []⟩ "? No!".toList =
        { sentence_buffer := ("Hi".toList ++ "? No!".toList).drop 3,
          full_response_text := "Hi".toList ++ "? No!".toList,
          units := [("Hi".toList ++ "? No!".toList).take 3],
          dispatched := [pyStrip (("Hi".toList ++ "? No!".toList).take 3)] }
      ∧ isEnder (("Hi".toList ++ "? No!".toList).getD 2 'x') = true
      ∧ ∀ j, j < 2 → isEnder (("Hi".toList ++ "? No!".toList).getD j 'x') = false) :=
  ⟨⟨by decide, by decide⟩,
    c8_earliest_ender ⟨"Hi".toList, "Hi".toList, [], []⟩ "? No!".toList 2
      (by decide) (by decide)⟩

/-! ## Utterance Accumulator (`app/call_processor.py`, `CallProcessor._on_message`)

Deepgram delivers messages carrying a transcript plus `is_final` and
`speech_final` flags.  `_on_message` drops empty transcripts, appends final
transcripts to `self.full_transcript`, and on `speech_final` joins the
accumulated fragments with single spaces, strips the result, hands it to
`process_user_utterance` and resets the buffer.  Non-final transcripts only
publish an `interim_transcript` event. -/

structure DGMessage where
  transcript : List Char
  is_final : Bool
  speech_final : Bool
deriving DecidableEq

/-- Python `sep.join(parts)`. -/
def joinSep (sep : List Char) : List (List Char) → List Char
  | [] => []
  | [p] => p
  | p :: ps => p ++ sep ++ joinSep sep ps

structure AccResult where
  full_transcript : List (List Char)
  utterances : List (List Char)
  interims : List (List Char)
deriving DecidableEq

/-- One invocation of `CallProcessor._on_message`. -/
def onMessage (ft : List (List Char)) (m : DGMessage) : AccResult :=
  if m.transcript.length = 0 then ⟨ft, [], []⟩
  else if m.is_final then
    let ft2 := ft ++ [m.transcript]
    if m.speech_final then
      ⟨[], [pyStrip (joinSep [' '] ft2)], []⟩
    else ⟨ft2, [], []⟩
  else ⟨ft, [], [joinSep [' '] (ft ++ [m.transcript])]⟩

/-- A sequence of `_on_message` invocations, collecting the utterances handed
to `process_user_utterance` and the published interim transcripts. -/
def runMessages (ft : List (List Char)) : List DGMessage → AccResult
  | [] => ⟨ft, [], []⟩
  | m :: rest =>
      let r1 := onMessage ft m
      let r2 := runMessages r1.full_transcript rest
      ⟨r2.full_transcript, r1.utterances ++ r2.utterances, r1.interims ++ r2.interims⟩

def mkInterim (t : List Char) : DGMessage := ⟨t, false, false⟩
def mkFinal (t : List Char) : DGMessage := ⟨t, true, false⟩
def mkEndOfTurn (t : List Char) : DGMessage := ⟨t, true, true⟩

theorem run_interims (ts : List (List Char)) (ft : List (List Char))
    (rest : List DGMessage) :
    (runMessages ft (ts.map mkInterim ++ rest)).utterances
      = (runMessages ft rest).utterances := by
  induction ts with
  | nil => rfl
  | cons t ts ih =>
      by_cases h : t.length = 0 <;>
        simp [runMessages, onMessage, mkInterim, h, ih]

theorem run_finals (ts : List (List Char)) (h : ∀ t ∈ ts, t ≠ [])
    (ft : List (List Char)) (rest : List DGMessage) :
    (runMessages ft (ts.map mkFinal ++ rest)).utterances
      = (runMessages (ft ++ ts) rest).utterances := by
  induction ts generalizing ft with
  | nil => simp
  | cons t ts ih =>
      have ht : ¬ t.length = 0 := by
        simpa [List.length_eq_zero] using h t (by simp)
      have hrec := ih (fun x hx => h x (by simp [hx])) (ft ++ [t])
      simp [runMessages, onMessage, mkFinal, ht, hrec]

theorem run_eot (ft : List (List Char)) (eot : List Char) :
    (runMessages ft [mkEndOfTurn eot]).utterances
      = if eot ≠ [] then [pyStrip (joinSep [' '] (ft ++ [eot]))] else [] := by
  by_cases h : eot = [] <;>
    simp [runMessages, onMessage, mkEndOfTurn, h, List.length_eq_zero]

/-- C3, counterexample: Two final fragments `"hello"` and `"world"`, the
second carrying the end-of-turn flag: the Accumulator emits `"hello world"`
(the fragments are joined with single spaces), not the trimmed plain
concatenation `"helloworld"` the claim describes. -/
theorem c3_concat_counterexample :
    (runMessages [] [mkFinal "hello".toList, mkEndOfTurn "world".toList]).utterances
      ≠ [pyStrip (joinAll ["hello".toList, "world".toList])] := by decide

/-- C3, amended: For every sequence of interim fragments followed by
non-empty final fragments and an end-of-turn message: if the end-of-turn
message carries a non-empty transcript, the Accumulator emits exactly one
Utterance equal to the final fragments (including the end-of-turn one) joined
with single spaces and trimmed; an end-of-turn message with an empty
transcript is dropped by the empty-transcript guard and emits no Utterance. -/
theorem c3_amended (interims finals : List (List Char)) (eot : List Char)
    (hf : ∀ f ∈ finals, f ≠ []) :
    (runMessages []
        (interims.map mkInterim ++ finals.map mkFinal ++ [mkEndOfTurn eot])).utterances
      = if eot ≠ [] then [pyStrip (joinSep [' '] (finals ++ [eot]))] else [] := by
  rw [List.append_assoc, run_interims, run_finals finals hf [] [mkEndOfTurn eot]]
  simpa using run_eot finals eot

/-- Witness for `c3_amended`: interim `"my"`, finals `"my car"`, `"was hit"`,
end-of-turn fragment `"last Tuesday."` produce the single utterance
`"my car was hit last Tuesday."`. -/
theorem c3_amended_witness :
    (∀ f ∈ ["my car".toList, "was hit".toList], f ≠ []) ∧
    (runMessages []
        ([ "my".toList ].map mkInterim
          ++ ["my car".toList, "was hit".toList].map mkFinal
          ++ [mkEndOfTurn "last Tuesday.".toList])).utterances
      = if "last Tuesday.".toList ≠ []
        then [pyStrip (joinSep [' ']
                (["my car".toList, "was hit".toList] ++ ["last Tuesday.".toList]))]
        else [] :=
  ⟨by decide,
    c3_amended ["my".toList] ["my car".toList, "was hit".toList]
      "last Tuesday.".toList (by decide)⟩

/-! ## Call Turn State Machine (`app/agent_service.py`, `handle_user_input`)

The module-level dicts `call_states` / `call_histories` are modelled as
association lists keyed by the call-control id.  External collaborators enter
as parameters: `entities` is the dict returned by `extract_entities` (which
catches its own exceptions and returns `{"intent": "error"}`, so it never
raises); `retrieval` is the outcome of `crud.search_claims` — the one call in
the `try` block whose exceptions propagate to the `except` handler
(`Except.error` models the DB call raising); `genChunks`/`genFails` describe
the LLM token stream consumed by `stream_llm_and_tts_eva`, which catches its
own exceptions and returns `""`.  The `log` field records every externally
observable action in program order. -/

def alGet {α : Type} : List (String × α) → String → Option α
  | [], _ => none
  | (k, v) :: rest, key => if k = key then some v else alGet rest key

/-- Python dict assignment `d[key] = v`. -/
def alSet {α : Type} : List (String × α) → String → α → List (String × α)
  | [], key, v => [(key, v)]
  | (k, w) :: rest, key, v =>
      if k = key then (key, v) :: rest else (k, w) :: alSet rest key v

theorem alGet_alSet {α : Type} (m : List (String × α)) (k : String) (v : α) :
    alGet (alSet m k v) k = some v := by
  induction m with
  | nil => simp [alGet, alSet]
  | cons p rest ih =>
      obtain ⟨k', w⟩ := p
      by_cases h : k' = k <;> simp [alGet, alSet, h, ih]

structure Entities where
  intent : List Char
  policy_id : Option (List Char)
  keywords : Option (List Char)
deriving DecidableEq

/-- Rows of `crud.search_claims` as consumed by `handle_user_input`
(`c.policy_id` and `c.status.value`). -/
structure DbClaim where
  policy_id : List Char
  status : List Char
deriving DecidableEq

inductive PubEvent
  | stateUpdate (entities : Entities)
  | transcriptBot (text : List Char)
deriving DecidableEq

/-- Externally observable actions of `handle_user_input`, in program order. -/
inductive Ev
  | stateWrite (s : String)
  | extractCall
  | retrieveCall (q : List Char)
  | generateCall
  | ttsCall (t : List Char)
  | publish (e : PubEvent)
deriving DecidableEq

def error_message : List Char :=
  "I'm sorry, I've encountered a technical issue. Please try again.".toList

/-- Python `entities.get("policy_id") or entities.get("keywords")`
(`or` returns the second operand when the first is falsy). -/
def pyOrOpt : Option (List Char) → Option (List Char) → Option (List Char)
  | some s, b => if s = [] then b else some s
  | none, b => b

/-- Python truthiness of `entities.get(...)` results. -/
def truthyOpt : Option (List Char) → Bool
  | some s => s != []
  | none => false

structure HResult where
  call_states : List (String × String)
  call_histories : List (String × List (String × List Char))
  log : List Ev
deriving DecidableEq

/-- Generation tail of `handle_user_input`'s `try` block plus its `finally`
block: run `stream_llm_and_tts_eva`; when the returned text is non-empty,
append the assistant turn to the history and publish the bot transcript;
in all cases restore `call_states[id] = "LISTENING"`. -/
def huiGenerate (call_states : List (String × String))
    (call_histories : List (String × List (String × List Char)))
    (id : String) (hist1 : List (String × List Char)) (log : List Ev)
    (genChunks : List (List Char)) (genFails : Bool) : HResult :=
  let res := stream_llm_and_tts_eva genChunks genFails
  let full := res.1
  let log2 := log ++ [Ev.generateCall] ++ res.2.map Ev.ttsCall
  if full ≠ [] then
    ⟨alSet call_states id "LISTENING",
      alSet call_histories id (hist1 ++ [("assistant", full)]),
      log2 ++ [Ev.publish (.transcriptBot full), Ev.stateWrite "LISTENING"]⟩
  else
    ⟨alSet call_states id "LISTENING", call_histories,
      log2 ++ [Ev.stateWrite "LISTENING"]⟩

/-- Embedding of `handle_user_input`. -/
def handle_user_input
    (call_states : List (String × String))
    (call_histories : List (String × List (String × List Char)))
    (call_control_id : String) (user_utterance : List Char)
    (entities : Entities) (retrieval : Except Unit (List DbClaim))
    (genChunks : List (List Char)) (genFails : Bool) : HResult :=
  if alGet call_states call_control_id = some "SPEAKING" then
    ⟨call_states, call_histories, []⟩
  else
    let isNew := (alGet call_histories call_control_id).isNone
    let ch1 := if isNew then alSet call_histories call_control_id [] else call_histories
    let cs1 := if isNew then alSet call_states call_control_id "LISTENING" else call_states
    let initLog := if isNew then [Ev.stateWrite "LISTENING"] else []
    let hist1 := (alGet ch1 call_control_id).getD [] ++ [("user", user_utterance)]
    let ch2 := alSet ch1 call_control_id hist1
    let cs2 := alSet cs1 call_control_id "SPEAKING"
    let log := initLog ++ [Ev.stateWrite "SPEAKING", Ev.extractCall,
      Ev.publish (.stateUpdate entities)]
    let search_query := pyOrOpt entities.policy_id entities.keywords
    if entities.intent = "claim_status_check".toList ∧ truthyOpt search_query then
      match retrieval with
      | .error _ =>
          ⟨alSet cs2 call_control_id "LISTENING", ch2,
            log ++ [Ev.retrieveCall (search_query.getD []), Ev.ttsCall error_message,
              Ev.stateWrite "LISTENING"]⟩
      | .ok _rows =>
          huiGenerate cs2 ch2 call_control_id hist1
            (log ++ [Ev.retrieveCall (search_query.getD [])]) genChunks genFails
    else
      huiGenerate cs2 ch2 call_control_id hist1 log genChunks genFails

/-- The successive values written to `call_states[id]` during one call. -/
def stateWrites (log : List Ev) : List String :=
  log.filterMap fun e => match e with | .stateWrite s => some s | _ => none

theorem stateWrites_append (a b : List Ev) :
    stateWrites (a ++ b) = stateWrites a ++ stateWrites b := by
  simp [stateWrites]

theorem stateWrites_none (l : List Ev) (h : ∀ s, Ev.stateWrite s ∉ l) :
    stateWrites l = [] := by
  induction l with
  | nil => rfl
  | cons e rest ih =>
      have hrest : ∀ s, Ev.stateWrite s ∉ rest := fun s hs => h s (by simp [hs])
      cases e with
      | stateWrite s => exact absurd (by simp) (h s)
      | extractCall => simpa [stateWrites] using ih hrest
      | retrieveCall q => simpa [stateWrites] using ih hrest
      | generateCall => simpa [stateWrites] using ih hrest
      | ttsCall t => simpa [stateWrites] using ih hrest
      | publish e => simpa [stateWrites] using ih hrest

theorem sw_mem_stateWrites (s : String) (l : List Ev) (h : Ev.stateWrite s ∈ l) :
    s ∈ stateWrites l :=
  List.mem_filterMap.mpr ⟨Ev.stateWrite s, h, rfl⟩

theorem huiGenerate_log (cs : List (String × String))
    (ch : List (String × List (String × List Char))) (id : String)
    (hist1 : List (String × List Char)) (log : List Ev)
    (chunks : List (List Char)) (fails : Bool) :
    ∃ tail, (huiGenerate cs ch id hist1 log chunks fails).log
        = log ++ tail ++ [Ev.stateWrite "LISTENING"]
      ∧ ∀ s, Ev.stateWrite s ∉ tail := by
  simp only [huiGenerate]
  split_ifs with hfull
  · refine ⟨[Ev.generateCall] ++ (stream_llm_and_tts_eva chunks fails).2.map Ev.ttsCall
      ++ [Ev.publish (.transcriptBot (stream_llm_and_tts_eva chunks fails).1)],
      by simp, ?_⟩
    intro s
    simp
  · refine ⟨[Ev.generateCall] ++ (stream_llm_and_tts_eva chunks fails).2.map Ev.ttsCall,
      by simp, ?_⟩
    intro s
    simp

theorem huiGenerate_state (cs : List (String × String))
    (ch : List (String × List (String × List Char))) (id : String)
    (hist1 : List (String × List Char)) (log : List Ev)
    (chunks : List (List Char)) (fails : Bool) :
    alGet (huiGenerate cs ch id hist1 log chunks fails).call_states id
      = some "LISTENING" := by
  simp only [huiGenerate]
  split_ifs <;> exact alGet_alSet _ _ _

/-- C1: While `call_states[call_control_id] == "SPEAKING"`, a newly
assembled utterance is dropped at the top of `handle_user_input`: no entity
extraction, retrieval, generation, synthesis or event publication takes place,
and the per-call state and history are left untouched. -/
theorem c1_speaking_gate (cs : List (String × String))
    (ch : List (String × List (String × List Char))) (id : String)
    (utt : List Char) (entities : Entities) (retrieval : Except Unit (List DbClaim))
    (chunks : List (List Char)) (fails : Bool)
    (h : alGet cs id = some "SPEAKING") :
    handle_user_input cs ch id utt entities retrieval chunks fails = ⟨cs, ch, []⟩ := by
  simp [handle_user_input, h]

/-- Witness for `c1_speaking_gate`: a call whose state is `"SPEAKING"`. -/
theorem c1_speaking_gate_witness :
    alGet [("c1", "SPEAKING")] "c1" = some "SPEAKING"
    ∧ handle_user_input [("c1", "SPEAKING")] [] "c1" "hi".toList
        ⟨"greeting".toList, none, none⟩ (Except.ok []) [] false
      = ⟨[("c1", "SPEAKING")], [], []⟩ :=
  ⟨by decide,
    c1_speaking_gate [("c1", "SPEAKING")] [] "c1" "hi".toList
      ⟨"greeting".toList, none, none⟩ (Except.ok []) [] false (by decide)⟩

/-- C5, counterexample: A full successful turn on a fresh call (accepted
utterance, retrieval returning one record, generation succeeding): the values
written to `call_states` are `LISTENING, SPEAKING, LISTENING` — the machine
moves directly from `LISTENING` to `SPEAKING` at acceptance and the state
`THINKING` never occurs, refuting the claimed
`LISTENING → THINKING → SPEAKING → LISTENING` sequence. -/
theorem c5_no_thinking_counterexample :
    stateWrites (handle_user_input [] [] "call-1" "My car was hit last Tuesday.".toList
        ⟨"claim_status_check".toList, some "POL-1234".toList, none⟩
        (.ok [⟨"POL-1234".toList, "IN_REVIEW".toList⟩])
        ["Okay. ".toList, "Found it.".toList] false).log
      = ["LISTENING", "SPEAKING", "LISTENING"]
    ∧ Ev.stateWrite "THINKING"
        ∉ (handle_user_input [] [] "call-1" "My car was hit last Tuesday.".toList
            ⟨"claim_status_check".toList, some "POL-1234".toList, none⟩
            (.ok [⟨"POL-1234".toList, "IN_REVIEW".toList⟩])
            ["Okay. ".toList, "Found it.".toList] false).log := by
  constructor
  · decide
  · decide

/-- C5, amended: For every accepted utterance (state not `"SPEAKING"`),
`handle_user_input` writes `"SPEAKING"` immediately at acceptance — before
entity extraction, retrieval or generation begin — and writes `"LISTENING"`
again in the cleanup step, so a completed turn passes through the state
sequence `LISTENING, SPEAKING, LISTENING`; no `THINKING` state exists. -/
theorem c5_amended (cs : List (String × String))
    (ch : List (String × List (String × List Char))) (id : String)
    (utt : List Char) (entities : Entities) (retrieval : Except Unit (List DbClaim))
    (chunks : List (List Char)) (fails : Bool)
    (h : ¬ alGet cs id = some "SPEAKING") :
    ∃ mid,
      (handle_user_input cs ch id utt entities retrieval chunks fails).log
        = (if (alGet ch id).isNone then [Ev.stateWrite "LISTENING"] else [])
          ++ [Ev.stateWrite "SPEAKING", Ev.extractCall, Ev.publish (.stateUpdate entities)]
          ++ mid ++ [Ev.stateWrite "LISTENING"]
      ∧ (∀ s, Ev.stateWrite s ∉ mid)
      ∧ stateWrites (handle_user_input cs ch id utt entities retrieval chunks fails).log
          = (if (alGet ch id).isNone then ["LISTENING"] else [])
            ++ ["SPEAKING", "LISTENING"]
      ∧ Ev.stateWrite "THINKING"
          ∉ (handle_user_input cs ch id utt entities retrieval chunks fails).log := by
  simp only [handle_user_input]
  rw [if_neg h]
  by_cases hsearch :
      entities.intent = "claim_status_check".toList
        ∧ truthyOpt (pyOrOpt entities.policy_id entities.keywords) = true
  · rw [if_pos hsearch]
    cases retrieval with
    | error e =>
        refine ⟨[Ev.retrieveCall ((pyOrOpt entities.policy_id entities.keywords).getD []),
          Ev.ttsCall error_message], ?_, ?_, ?_, ?_⟩ <;>
          by_cases hnew : (alGet ch id).isNone <;>
          simp [hnew, stateWrites] <;> decide
    | ok rows =>
        obtain ⟨tail, hlog, hmid⟩ := huiGenerate_log _ _ _ _ _ chunks fails
        rw [hlog]
        refine ⟨Ev.retrieveCall ((pyOrOpt entities.policy_id entities.keywords).getD [])
          :: tail, by simp, ?_, ?_, ?_⟩
        · intro s
          simp [hmid s]
        · by_cases hnew : (alGet ch id).isNone <;>
            simp [hnew, stateWrites_append, stateWrites] <;>
            (intro a ha; cases a <;> first | rfl | exact absurd ha (hmid _))
        · by_cases hnew : (alGet ch id).isNone <;>
            simp [hnew, hmid] <;> decide
  · rw [if_neg hsearch]
    obtain ⟨tail, hlog, hmid⟩ := huiGenerate_log _ _ _ _ _ chunks fails
    rw [hlog]
    refine ⟨tail, by simp, hmid, ?_, ?_⟩
    · by_cases hnew : (alGet ch id).isNone <;>
        simp [hnew, stateWrites_append, stateWrites] <;>
        (intro a ha; cases a <;> first | rfl | exact absurd ha (hmid _))
    · by_cases hnew : (alGet ch id).isNone <;>
        simp [hnew, hmid] <;> decide

/-- Witness for `c5_amended` on a fresh call with a greeting turn. -/
theorem c5_amended_witness :
    (¬ alGet [] "c1" = some "SPEAKING")
    ∧ ∃ mid,
      (handle_user_input [] [] "c1" "Hello.".toList
          ⟨"greeting".toList, none, none⟩ (Except.ok []) ["Hi there.".toList] false).log
        = (if (alGet ([] : List (String × List (String × List Char))) "c1").isNone
            then [Ev.stateWrite "LISTENING"] else [])
          ++ [Ev.stateWrite "SPEAKING", Ev.extractCall,
              Ev.publish (.stateUpdate ⟨"greeting".toList, none, none⟩)]
          ++ mid ++ [Ev.stateWrite "LISTENING"]
      ∧ (∀ s, Ev.stateWrite s ∉ mid)
      ∧ stateWrites (handle_user_input [] [] "c1" "Hello.".toList
            ⟨"greeting".toList, none, none⟩ (Except.ok []) ["Hi there.".toList] false).log
          = (if (alGet ([] : List (String × List (String × List Char))) "c1").isNone
              then ["LISTENING"] else [])
            ++ ["SPEAKING", "LISTENING"]
      ∧ Ev.stateWrite "THINKING"
          ∉ (handle_user_input [] [] "c1" "Hello.".toList
              ⟨"greeting".toList, none, none⟩ (Except.ok []) ["Hi there.".toList] false).log :=
  ⟨by decide,
    c5_amended [] [] "c1" "Hello.".toList ⟨"greeting".toList, none, none⟩
      (Except.ok []) ["Hi there.".toList] false (by decide)⟩

/-- C6, counterexample: An exception raised inside the generation stream
is caught by `stream_llm_and_tts_eva` itself (which returns `""`), so
`handle_user_input`'s `except` handler never runs: the log of such a turn
contains no synthesis call at all — in particular no spoken apology
(`Ev.ttsCall error_message`) — refuting the claim that every exception raised
during extraction/retrieval/generation triggers the apology.  (The state *is*
still restored to `LISTENING` by the `finally` block.) -/
theorem c6_no_apology_counterexample :
    (handle_user_input [] [] "call-1" "Hello.".toList
        ⟨"greeting".toList, none, none⟩ (Except.ok []) [] true).log
      = [Ev.stateWrite "LISTENING", Ev.stateWrite "SPEAKING", Ev.extractCall,
         Ev.publish (.stateUpdate ⟨"greeting".toList, none, none⟩), Ev.generateCall,
         Ev.stateWrite "LISTENING"]
    ∧ Ev.ttsCall error_message
        ∉ (handle_user_input [] [] "call-1" "Hello.".toList
            ⟨"greeting".toList, none, none⟩ (Except.ok []) [] true).log := by
  constructor
  · decide
  · decide

/-- C6, amended: For every turn accepted by `handle_user_input`, the
call's state is restored to `"LISTENING"` in the guaranteed `finally` step no
matter how the turn ends; and every exception that *propagates into the `try`
block* (in this code: a retrieval failure) additionally triggers the spoken
apology through `stream_tts_to_telnyx`.  Exceptions caught inside entity
extraction or inside the generation stream are handled locally (error intent /
empty response) and do not produce an apology. -/
theorem c6_amended (cs : List (String × String))
    (ch : List (String × List (String × List Char))) (id : String)
    (utt : List Char) (entities : Entities) (retrieval : Except Unit (List DbClaim))
    (chunks : List (List Char)) (fails : Bool)
    (h : ¬ alGet cs id = some "SPEAKING") :
    alGet (handle_user_input cs ch id utt entities retrieval chunks fails).call_states id
      = some "LISTENING"
    ∧ ((entities.intent = "claim_status_check".toList
          ∧ truthyOpt (pyOrOpt entities.policy_id entities.keywords) = true)
        → retrieval = .error ()
        → Ev.ttsCall error_message
            ∈ (handle_user_input cs ch id utt entities retrieval chunks fails).log) := by
  simp only [handle_user_input]
  rw [if_neg h]
  constructor
  · by_cases hsearch :
        entities.intent = "claim_status_check".toList
          ∧ truthyOpt (pyOrOpt entities.policy_id entities.keywords) = true
    · rw [if_pos hsearch]
      cases retrieval with
      | error e => exact alGet_alSet _ _ _
      | ok rows => exact huiGenerate_state _ _ _ _ _ _ _
    · rw [if_neg hsearch]
      exact huiGenerate_state _ _ _ _ _ _ _
  · intro hsearch herr
    rw [if_pos hsearch, herr]
    simp

/-- Witness for `c6_amended`: a retrieval (database) failure during a
claim-status turn — the apology is spoken and the state returns to
`LISTENING`. -/
theorem c6_amended_witness :
    (¬ alGet [] "c1" = some "SPEAKING")
    ∧ (alGet (handle_user_input [] [] "c1" "Status of POL-1234?".toList
          ⟨"claim_status_check".toList, some "POL-1234".toList, none⟩
          (Except.error ()) [] false).call_states "c1" = some "LISTENING"
      ∧ ((⟨"claim_status_check".toList, some "POL-1234".toList, none⟩ : Entities).intent
            = "claim_status_check".toList
          ∧ truthyOpt (pyOrOpt
              (⟨"claim_status_check".toList, some "POL-1234".toList, none⟩ : Entities).policy_id
              (⟨"claim_status_check".toList, some "POL-1234".toList, none⟩ : Entities).keywords)
            = true
          → (Except.error () : Except Unit (List DbClaim)) = .error ()
          → Ev.ttsCall error_message
              ∈ (handle_user_input [] [] "c1" "Status of POL-1234?".toList
                  ⟨"claim_status_check".toList, some "POL-1234".toList, none⟩
                  (Except.error ()) [] false).log)) :=
  ⟨by decide,
    c6_amended [] [] "c1" "Status of POL-1234?".toList
      ⟨"claim_status_check".toList, some "POL-1234".toList, none⟩
      (Except.error ()) [] false (by decide)⟩

/-- C9: When the generation stream fails (`stream_llm_and_tts_eva`
catches the exception and returns `""`), the conversation history for the call
ends with only the user's utterance appended — no assistant entry — and no bot
transcript event is published. -/
theorem c9_generation_failure (cs : List (String × String))
    (ch : List (String × List (String × List Char))) (id : String)
    (utt : List Char) (entities : Entities) (retrieval : Except Unit (List DbClaim))
    (chunks : List (List Char))
    (h : ¬ alGet cs id = some "SPEAKING") :
    alGet (handle_user_input cs ch id utt entities retrieval chunks true).call_histories id
      = some ((alGet ch id).getD [] ++ [("user", utt)])
    ∧ ∀ t, Ev.publish (.transcriptBot t)
        ∉ (handle_user_input cs ch id utt entities retrieval chunks true).log := by
  have hfull : (stream_llm_and_tts_eva chunks true).1 = [] := rfl
  simp only [handle_user_input]
  rw [if_neg h]
  have hhist : (alGet (if (alGet ch id).isNone then alSet ch id [] else ch) id).getD []
      = (alGet ch id).getD [] := by
    by_cases hnew : alGet ch id = none <;>
      simp [Option.isNone_iff_eq_none, hnew, alGet_alSet]
  have hhist2 : (alGet (if alGet ch id = none then alSet ch id [] else ch) id).getD []
      = (alGet ch id).getD [] := by
    by_cases hnew : alGet ch id = none <;> simp [hnew, alGet_alSet]
  by_cases hsearch :
      entities.intent = "claim_status_check".toList
        ∧ truthyOpt (pyOrOpt entities.policy_id entities.keywords) = true
  · rw [if_pos hsearch]
    cases retrieval with
    | error e =>
        refine ⟨?_, ?_⟩
        · rw [alGet_alSet, hhist]
        · intro t
          by_cases hnew : (alGet ch id).isNone <;> simp [hnew]
    | ok rows =>
        refine ⟨?_, ?_⟩
        · simp only [huiGenerate, hfull]
          simp [alGet_alSet, hhist, hhist2]
        · intro t
          simp only [huiGenerate, hfull]
          by_cases hnew : (alGet ch id).isNone <;> simp [hnew]
  · rw [if_neg hsearch]
    refine ⟨?_, ?_⟩
    · simp only [huiGenerate, hfull]
      simp [alGet_alSet, hhist, hhist2]
    · intro t
      simp only [huiGenerate, hfull]
      by_cases hnew : (alGet ch id).isNone <;> simp [hnew]

/-- Witness for `c9_generation_failure`: a greeting turn on a call with an
existing history whose generation stream fails. -/
theorem c9_generation_failure_witness :
    (¬ alGet [("c1", "LISTENING")] "c1" = some "SPEAKING")
    ∧ (alGet (handle_user_input [("c1", "LISTENING")]
          [("c1", [("user", "Hi.".toList)])] "c1" "Hello again.".toList
          ⟨"greeting".toList, none, none⟩ (Except.ok []) ["Oops".toList] true).call_histories
          "c1"
        = some ((alGet [("c1", [("user", "Hi.".toList)])] "c1").getD []
            ++ [("user", "Hello again.".toList)])
      ∧ ∀ t, Ev.publish (.transcriptBot t)
          ∉ (handle_user_input [("c1", "LISTENING")]
              [("c1", [("user", "Hi.".toList)])] "c1" "Hello again.".toList
              ⟨"greeting".toList, none, none⟩ (Except.ok []) ["Oops".toList] true).log) :=
  ⟨by decide,
    c9_generation_failure [("c1", "LISTENING")] [("c1", [("user", "Hi.".toList)])]
      "c1" "Hello again.".toList ⟨"greeting".toList, none, none⟩
      (Except.ok []) ["Oops".toList] (by decide)⟩

/-! ## Speech Synthesis Stream Adapter (`app/tts_service.py`, `stream_tts_to_telnyx`)

One invocation opens an ElevenLabs websocket and, in a loop, forwards every
received audio chunk to the shared Telnyx websocket (as a `media` event) until
an `isFinal` message or a closed connection.  The function acquires no lock and
uses no queue; `stream_llm_and_tts_eva` starts one such task per sentence with
`asyncio.create_task` and does not await it, so writes of concurrently running
invocations for the same call may interleave on the shared sink in any order
that respects each task's own program order.  `Merge` captures exactly those
schedules. -/

inductive SynthMsg
  | audio (payload : List Char)
  | final
  | other
deriving DecidableEq

/-- The forwarding loop of `stream_tts_to_telnyx`: the ordered list of payloads
written to the Telnyx websocket, given the messages received from the
synthesis service in order (stops at `isFinal`; a closed connection simply
ends the list). -/
def stream_tts_to_telnyx_writes : List SynthMsg → List (List Char)
  | [] => []
  | .audio p :: rest => p :: stream_tts_to_telnyx_writes rest
  | .final :: _ => []
  | .other :: rest => stream_tts_to_telnyx_writes rest

/-- Tag each outbound write with the sequence number of the Response Unit
whose synthesis task produced it. -/
def tagWrites (unit : Nat) (writes : List (List Char)) : List (Nat × List Char) :=
  writes.map (fun p => (unit, p))

/-- Order-preserving interleaving of two concurrently running tasks' writes:
`Merge xs ys zs` holds iff `zs` is a possible order in which the shared sink
receives the writes.  Because `stream_tts_to_telnyx` performs no
synchronisation, every such interleaving is a possible schedule. -/
inductive Merge : List (Nat × List Char) → List (Nat × List Char) →
    List (Nat × List Char) → Prop
  | nil : Merge [] [] []
  | left {x : Nat × List Char} {xs ys zs} :
      Merge xs ys zs → Merge (x :: xs) ys (x :: zs)
  | right {y : Nat × List Char} {xs ys zs} :
      Merge xs ys zs → Merge xs (y :: ys) (y :: zs)

/-- The sink order respects Response-Unit order iff the unit tags along the
sink sequence never decrease (one unit's audio fully flushed before the next
unit's begins). -/
def unitsInOrder (l : List (Nat × List Char)) : Prop :=
  List.Chain' (fun a b => a.1 ≤ b.1) l

/-- C2: `stream_llm_and_tts_eva` dispatches `stream_tts_to_telnyx`
invocations with `asyncio.create_task` and never serialises their writes to
the shared Telnyx websocket, so there is a valid schedule (an order-preserving
interleaving of the two tasks' writes) in which the single frame of unit 1
reaches the sink before the two frames of unit 0: the ordering claimed by the
specification is not enforced by the code. -/
theorem c2_unserialized_reorder :
    ∃ z, Merge (tagWrites 0 (stream_tts_to_telnyx_writes
          [.audio "a1".toList, .audio "a2".toList, .final]))
        (tagWrites 1 (stream_tts_to_telnyx_writes [.audio "b1".toList, .final])) z
      ∧ ¬ unitsInOrder z := by
  refine ⟨[(1, "b1".toList), (0, "a1".toList), (0, "a2".toList)], ?_, ?_⟩
  · exact Merge.right (Merge.left (Merge.left Merge.nil))
  · simp [unitsInOrder]

/-! ## Lock-on session loop (`NER/main.py`, `main_conversation_loop`;
`NER/ner_agent.py`, `ConversationState`, `formulate_search_query`,
`query_claims_api`)

One iteration of the interactive loop: `quit`/`exit` break, `clear`/`reset`
clear the locked claim, otherwise a search query is formulated (the spaCy
entity/noun-chunk/regex pipeline of `formulate_search_query`'s no-lock branch
is driven by the external NLP model and enters as the `nlpQuery` parameter;
with a locked claim carrying a policy id the query is
`f"{policy_id} {text}"`), the claims API is called exactly once, and — when no
claim is locked and the API returned exactly one result — the session locks
onto that result. -/

def pyLower (s : List Char) : List Char := s.map Char.toLower

structure ClaimRec where
  policy_id : Option (List Char)
  customer_name : Option (List Char)
deriving DecidableEq

inductive ApiOutcome
  | success (data : List ClaimRec)
  | httpError (status : Nat) (text : List Char)
  | connError (msg : List Char)
  | timeout
deriving DecidableEq

structure ApiResult where
  count : Nat
  results : List ClaimRec
  error : Option (List Char)
deriving DecidableEq

/-- Embedding of `query_claims_api`: wraps the HTTP outcome into a dict of
count, results and error; the count is the length of the data on HTTP 200 and
zero on any failure. -/
def query_claims_api : ApiOutcome → ApiResult
  | .success data => ⟨data.length, data, none⟩
  | .httpError s t =>
      ⟨0, [], some (("API Error (Status " ++ Nat.repr s ++ "): ").toList ++ t)⟩
  | .connError m => ⟨0, [], some ("Connection Error: ".toList ++ m)⟩
  | .timeout => ⟨0, [], some "Connection timed out.".toList⟩

structure ConversationState where
  resolved_claim : Option ClaimRec
deriving DecidableEq

/-- Embedding of `formulate_search_query`: with a locked context claim that has a
`policy_id`, the query is the policy id followed by the user text; otherwise
the spaCy pipeline (external model, parameter `nlpQuery`) produces it. -/
def formulate_search_query (nlpQuery : List Char → List Char)
    (text : List Char) (context_claim : Option ClaimRec) : List Char :=
  match context_claim with
  | some c =>
      match c.policy_id with
      | some pid => pid ++ [' '] ++ text
      | none => nlpQuery text
  | none => nlpQuery text

/-- One iteration of `main_conversation_loop`: returns the new state, the
queries sent to the claims API during this turn, and whether the loop
continues. -/
def loopStep (nlpQuery : List Char → List Char) (st : ConversationState)
    (input : List Char) (out : ApiOutcome) :
    ConversationState × List (List Char) × Bool :=
  if pyLower input = "quit".toList ∨ pyLower input = "exit".toList then (st, [], false)
  else if pyLower input = "clear".toList ∨ pyLower input = "reset".toList then
    (⟨none⟩, [], true)
  else
    let q := formulate_search_query nlpQuery input st.resolved_claim
    if pyStrip q = [] then (st, [], true)
    else
      let res := query_claims_api out
      let st' :=
        if st.resolved_claim = none ∧ res.count = 1 then
          (⟨res.results.head?⟩ : ConversationState)
        else st
      (st', [q], true)

/-- The whole conversation loop over a list of (user input, API outcome)
turns, collecting the API queries of each executed turn. -/
def runLoop (nlpQuery : List Char → List Char) (st : ConversationState) :
    List (List Char × ApiOutcome) → ConversationState × List (List (List Char))
  | [] => (st, [])
  | (inp, out) :: rest =>
      let r := loopStep nlpQuery st inp out
      if r.2.2 then
        let rr := runLoop nlpQuery r.1 rest
        (rr.1, r.2.1 :: rr.2)
      else (r.1, [r.2.1])

theorem c7_persist (nlpQuery : List Char → List Char) (r : ClaimRec)
    (pid : List Char) (hr : r.policy_id = some pid) :
    ∀ rest : List (List Char × ApiOutcome),
      (∀ t ∈ rest,
        ¬ (pyLower t.1 = "quit".toList ∨ pyLower t.1 = "exit".toList)
        ∧ ¬ (pyLower t.1 = "clear".toList ∨ pyLower t.1 = "reset".toList)
        ∧ pyStrip (pid ++ [' '] ++ t.1) ≠ []) →
      (runLoop nlpQuery ⟨some r⟩ rest).1.resolved_claim = some r
      ∧ (runLoop nlpQuery ⟨some r⟩ rest).2
          = rest.map (fun t => [pid ++ [' '] ++ t.1]) := by
  intro rest
  induction rest with
  | nil => intro _; exact ⟨rfl, rfl⟩
  | cons t rest ih =>
      intro hall
      obtain ⟨h2, h3, h4⟩ := hall t (by simp)
      have hrest := ih (fun x hx => hall x (by simp [hx]))
      obtain ⟨inp, out⟩ := t
      simp only [runLoop, loopStep, formulate_search_query, hr] at *
      rw [if_neg h2, if_neg h3, if_neg h4]
      simp [hrest.1, hrest.2]

/-- C7: In every turn the claims API is queried at most once; when no
claim is locked and the API returns exactly one result, the session locks onto
that result, the lock persists across all subsequent non-clearing turns, and
every subsequent query is formulated from the locked claim's policy id
(`f"{policy_id} {text}"`). -/
theorem c7_lock_on (nlpQuery : List Char → List Char) (st : ConversationState)
    (inp : List Char) (r : ClaimRec) (pid : List Char)
    (rest : List (List Char × ApiOutcome))
    (h1 : st.resolved_claim = none)
    (h2 : ¬ (pyLower inp = "quit".toList ∨ pyLower inp = "exit".toList))
    (h3 : ¬ (pyLower inp = "clear".toList ∨ pyLower inp = "reset".toList))
    (h4 : pyStrip (formulate_search_query nlpQuery inp none) ≠ [])
    (h5 : r.policy_id = some pid)
    (h6 : ∀ t ∈ rest,
        ¬ (pyLower t.1 = "quit".toList ∨ pyLower t.1 = "exit".toList)
        ∧ ¬ (pyLower t.1 = "clear".toList ∨ pyLower t.1 = "reset".toList)
        ∧ pyStrip (pid ++ [' '] ++ t.1) ≠ []) :
    (∀ (st' : ConversationState) (inp' : List Char) (out' : ApiOutcome),
        (loopStep nlpQuery st' inp' out').2.1.length ≤ 1)
    ∧ (loopStep nlpQuery st inp (.success [r])).1.resolved_claim = some r
    ∧ (loopStep nlpQuery st inp (.success [r])).2.1
        = [formulate_search_query nlpQuery inp none]
    ∧ (runLoop nlpQuery ⟨some r⟩ rest).1.resolved_claim = some r
    ∧ (runLoop nlpQuery ⟨some r⟩ rest).2
        = rest.map (fun t => [pid ++ [' '] ++ t.1]) := by
  obtain ⟨hp1, hp2⟩ := c7_persist nlpQuery r pid h5 rest h6
  refine ⟨?_, ?_, ?_, hp1, hp2⟩
  · intro st' inp' out'
    simp only [loopStep]
    split_ifs <;> simp
  · simp only [loopStep, h1]
    rw [if_neg h2, if_neg h3, if_neg h4]
    simp [query_claims_api]
  · simp only [loopStep, h1]
    rw [if_neg h2, if_neg h3, if_neg h4]

/-- Witness for `c7_lock_on`: the utterance `"My car was hit last Tuesday"`
with no locked context and the API returning exactly one record, followed by a
further turn that reuses the locked policy id. -/
theorem c7_lock_on_witness :
    ((⟨none⟩ : ConversationState).resolved_claim = none
      ∧ pyStrip (formulate_search_query id "My car was hit last Tuesday".toList none) ≠ [])
    ∧ ((∀ (st' : ConversationState) (inp' : List Char) (out' : ApiOutcome),
          (loopStep id st' inp' out').2.1.length ≤ 1)
      ∧ (loopStep id ⟨none⟩ "My car was hit last Tuesday".toList
          (.success [⟨some "POL-001".toList, some "Anna Kowalska".toList⟩])).1.resolved_claim
          = some ⟨some "POL-001".toList, some "Anna Kowalska".toList⟩
      ∧ (loopStep id ⟨none⟩ "My car was hit last Tuesday".toList
          (.success [⟨some "POL-001".toList, some "Anna Kowalska".toList⟩])).2.1
          = [formulate_search_query id "My car was hit last Tuesday".toList none]
      ∧ (runLoop id ⟨some ⟨some "POL-001".toList, some "Anna Kowalska".toList⟩⟩
          [("what is the status?".toList,
            .success [⟨some "POL-001".toList, some "Anna Kowalska".toList⟩])]).1.resolved_claim
          = some ⟨some "POL-001".toList, some "Anna Kowalska".toList⟩
      ∧ (runLoop id ⟨some ⟨some "POL-001".toList, some "Anna Kowalska".toList⟩⟩
          [("what is the status?".toList,
            .success [⟨some "POL-001".toList, some "Anna Kowalska".toList⟩])]).2
          = [("what is the status?".toList,
              (.success [⟨some "POL-001".toList, some "Anna Kowalska".toList⟩] : ApiOutcome))].map
              (fun t => ["POL-001".toList ++ [' '] ++ t.1])) :=
  ⟨⟨by decide, by decide⟩,
    c7_lock_on id ⟨none⟩ "My car was hit last Tuesday".toList
      ⟨some "POL-001".toList, some "Anna Kowalska".toList⟩ "POL-001".toList
      [("what is the status?".toList,
        .success [⟨some "POL-001".toList, some "Anna Kowalska".toList⟩])]
      (by decide) (by decide) (by decide) (by decide) (by decide) (by decide)⟩

/-! ## Retrieval (`app/crud.py`, `search_claims`)

`search_claims` splits the query on whitespace (`query.strip().split()`),
joins the terms with `" & "`, and runs a PostgreSQL full-text query:
`filter(search_vector @@ to_tsquery('simple', fq))`,
`order_by(ts_rank(search_vector, to_tsquery('simple', fq)).desc())`,
`limit(10)`.  The external FTS collaborator is modelled from its documented
semantics: `to_tsquery('simple', t1 & ... & tn)` is the conjunction of the
terms (recovered here by splitting the formatted string on `" & "` — proved
below to invert the join), `@@` holds iff every conjunct occurs in the row's
`search_vector`, and `ts_rank` is an opaque scoring function (a parameter). -/

def andSep : List Char := " & ".toList

/-- Python `query.strip().split()` (split on whitespace runs, no empties). -/
def pyWordsAux : List Char → List Char → List (List Char)
  | [], acc => if acc = [] then [] else [acc.reverse]
  | c :: cs, acc =>
      if c.isWhitespace then
        if acc = [] then pyWordsAux cs [] else acc.reverse :: pyWordsAux cs []
      else pyWordsAux cs (c :: acc)

def pyWords (s : List Char) : List (List Char) := pyWordsAux s []

theorem pyWordsAux_no_ws (s : List Char) :
    ∀ acc : List Char, (∀ c ∈ acc, c.isWhitespace = false) →
      ∀ w ∈ pyWordsAux s acc, ∀ c ∈ w, c.isWhitespace = false := by
  induction s with
  | nil =>
      intro acc hacc w hw
      by_cases h : acc = [] <;> simp [pyWordsAux, h] at hw
      subst hw
      intro c hc
      exact hacc c (by simpa using hc)
  | cons x xs ih =>
      intro acc hacc w hw
      by_cases hx : x.isWhitespace
      · by_cases h : acc = []
        · exact ih [] (by simp) w (by simpa [pyWordsAux, hx, h] using hw)
        · simp only [pyWordsAux, hx, if_true, h, if_false, List.mem_cons] at hw
          rcases hw with rfl | hw
          · intro c hc
            exact hacc c (by simpa using hc)
          · exact ih [] (by simp) w hw
      · refine ih (x :: acc) ?_ w (by simpa [pyWordsAux, hx] using hw)
        intro c hc
        rcases List.mem_cons.mp hc with rfl | hc
        · simpa using hx
        · exact hacc c hc

theorem pyWords_no_space (s : List Char) (w : List Char) (hw : w ∈ pyWords s) :
    ' ' ∉ w := by
  intro hsp
  have := pyWordsAux_no_ws s [] (by simp) w hw ' ' hsp
  simp at this

/-- Index of the first occurrence of `" & "` in `s`. -/
def findSub : List Char → Option Nat
  | [] => none
  | c :: cs => if andSep.isPrefixOf (c :: cs) then some 0 else (findSub cs).map (· + 1)

theorem findSub_some_pos (s : List Char) (i : Nat) (h : findSub s = some i) :
    0 < s.length := by
  cases s with
  | nil => simp [findSub] at h
  | cons c cs => simp

/-- Model of parsing `to_tsquery('simple', fq)` for the `" & "`-joined query
strings produced by `search_claims`: split the string back on `" & "`. -/
def splitOnAnd (s : List Char) : List (List Char) :=
  match h : findSub s with
  | none => [s]
  | some i => s.take i :: splitOnAnd (s.drop (i + 3))
termination_by s.length
decreasing_by
  have hpos := findSub_some_pos s i h
  simp only [List.length_drop]
  omega

theorem not_space_beq (c : Char) (hc : ¬ c = ' ') : (' ' == c) = false := by
  simp only [beq_eq_false_iff_ne, ne_eq]
  exact fun habs => hc habs.symm

theorem findSub_none (s : List Char) (h : ' ' ∉ s) : findSub s = none := by
  induction s with
  | nil => rfl
  | cons c cs ih =>
      have hc : ¬ c = ' ' := fun hentry => h (by simp [hentry])
      have hpre : andSep.isPrefixOf (c :: cs) = false := by
        cases hcs : cs <;> simp [andSep, List.isPrefixOf, not_space_beq c hc]
      simp [findSub, hpre, ih (fun hx => h (by simp [hx]))]

theorem findSub_append (p t : List Char) (h : ' ' ∉ p) :
    findSub (p ++ (andSep ++ t)) = some p.length := by
  induction p with
  | nil =>
      have hp : andSep.isPrefixOf (andSep ++ t) = true := by
        simp [andSep, List.isPrefixOf]
      simp only [List.nil_append]
      rw [show andSep ++ t = ' ' :: '&' :: ' ' :: t from rfl] at hp ⊢
      simp [findSub, hp]
  | cons c cs ih =>
      have hc : ¬ c = ' ' := fun hentry => h (by simp [hentry])
      have hpre : andSep.isPrefixOf (c :: (cs ++ (andSep ++ t))) = false := by
        simp [andSep, List.isPrefixOf, not_space_beq c hc]
      simp [findSub, hpre, ih (fun hx => h (by simp [hx]))]

theorem splitOnAnd_eq_none (s : List Char) (h : findSub s = none) :
    splitOnAnd s = [s] := by
  rw [splitOnAnd]
  split
  · rfl
  · next j h' => rw [h] at h'; cases h'

theorem splitOnAnd_eq_some (s : List Char) (i : Nat) (h : findSub s = some i) :
    splitOnAnd s = s.take i :: splitOnAnd (s.drop (i + 3)) := by
  rw [splitOnAnd]
  split
  · next h' => rw [h] at h'; cases h'
  · next j h' => rw [h] at h'; cases h'; rfl

theorem splitOnAnd_joinSep (parts : List (List Char)) (hne : parts ≠ [])
    (hfree : ∀ p ∈ parts, ' ' ∉ p) :
    splitOnAnd (joinSep andSep parts) = parts := by
  induction parts with
  | nil => exact absurd rfl hne
  | cons p rest ih =>
      cases rest with
      | nil =>
          rw [show joinSep andSep [p] = p from rfl,
            splitOnAnd_eq_none p (findSub_none p (hfree p (by simp)))]
      | cons q rest' =>
          have hj : joinSep andSep (p :: q :: rest')
              = p ++ (andSep ++ joinSep andSep (q :: rest')) := by
            simp [joinSep]
          rw [hj, splitOnAnd_eq_some _ p.length
            (findSub_append p (joinSep andSep (q :: rest')) (hfree p (by simp)))]
          have ht : (p ++ (andSep ++ joinSep andSep (q :: rest'))).take p.length = p :=
            List.take_left p _
          have hd : (p ++ (andSep ++ joinSep andSep (q :: rest'))).drop (p.length + 3)
              = joinSep andSep (q :: rest') := by
            rw [show p ++ (andSep ++ joinSep andSep (q :: rest'))
                = (p ++ andSep) ++ joinSep andSep (q :: rest') by simp, show
                p.length + 3 = (p ++ andSep).length by simp [andSep]]
            exact List.drop_left (p ++ andSep) _
          rw [ht, hd, ih (by simp) (fun x hx => hfree x (by simp [hx]))]

/-- Embedding of `models.Claim` as consulted by `search_claims`: the indexed `search_vector`
plus the fields read by `handle_user_input`. -/
structure SearchClaim where
  policy_id : List Char
  status : List Char
  search_vector : List (List Char)
deriving DecidableEq

/-- Model of the FTS match `search_vector @@ to_tsquery('simple', fq)`:
every conjunct of the tsquery occurs in the row's vector. -/
def tsMatch (vector : List (List Char)) (terms : List (List Char)) : Bool :=
  terms.all (fun t => vector.contains t)

/-- Model of the SQL engine executing
`filter(search_vector @@ tsq).order_by(ts_rank(search_vector, tsq).desc()).limit(10)`:
`ts_rank` is PostgreSQL's opaque relevance score, a parameter. -/
def dbSelect (table : List SearchClaim) (terms : List (List Char))
    (ts_rank : List (List Char) → List (List Char) → Int) : List SearchClaim :=
  (((table.filter fun c => tsMatch c.search_vector terms).insertionSort
      fun a b => ts_rank b.search_vector terms ≤ ts_rank a.search_vector terms).take 10)

/-- Embedding of `search_claims`: split the query into whitespace-separated terms, join
them with `" & "` into `formatted_query`, and run the full-text query. -/
def search_claims (table : List SearchClaim)
    (ts_rank : List (List Char) → List (List Char) → Int)
    (query : List Char) : List SearchClaim :=
  let search_terms := pyWords query
  let formatted_query := joinSep andSep search_terms
  dbSelect table (splitOnAnd formatted_query) ts_rank

/-- C10: For every query with at least one whitespace-separated term,
`search_claims` returns at most 10 rows, every returned row's search vector
contains every term of the query (the `" & "` join is full-text AND logic),
and the rows are ordered by descending `ts_rank`. -/
theorem c10_search_claims (table : List SearchClaim)
    (ts_rank : List (List Char) → List (List Char) → Int) (q : List Char)
    (h : pyWords q ≠ []) :
    (search_claims table ts_rank q).length ≤ 10
    ∧ (∀ c ∈ search_claims table ts_rank q, ∀ t ∈ pyWords q, t ∈ c.search_vector)
    ∧ (search_claims table ts_rank q).Sorted
        (fun a b => ts_rank b.search_vector (pyWords q)
          ≤ ts_rank a.search_vector (pyWords q)) := by
  have hterms : splitOnAnd (joinSep andSep (pyWords q)) = pyWords q :=
    splitOnAnd_joinSep (pyWords q) h (fun p hp => pyWords_no_space q p hp)
  simp only [search_claims, dbSelect, hterms]
  refine ⟨List.length_take_le 10 _, ?_, ?_⟩
  · intro c hc t ht
    have hc1 := List.mem_of_mem_take hc
    have hc2 := (List.perm_insertionSort _ _).mem_iff.mp hc1
    have hc3 := List.mem_filter.mp hc2
    have := hc3.2
    simp only [tsMatch, List.all_eq_true] at this
    have hcont := this t ht
    simpa using hcont
  · letI rel : SearchClaim → SearchClaim → Prop :=
      fun a b => ts_rank b.search_vector (pyWords q) ≤ ts_rank a.search_vector (pyWords q)
    haveI : IsTotal SearchClaim rel := ⟨fun a b => le_total _ _⟩
    haveI : IsTrans SearchClaim rel := ⟨fun a b c hab hbc => le_trans hbc hab⟩
    exact (List.sorted_insertionSort rel _).sublist (List.take_sublist 10 _)

/-- Witness for `c10_search_claims` at the query `"water damage"` over a
two-row table. -/
theorem c10_search_claims_witness :
    pyWords "water damage".toList ≠ []
    ∧ ((search_claims
          [⟨"POL-001".toList, "OPEN".toList, ["water".toList, "damage".toList, "pol-001".toList]⟩,
           ⟨"POL-002".toList, "CLOSED".toList, ["car".toList, "accident".toList]⟩]
          (fun _ _ => 0) "water damage".toList).length ≤ 10
      ∧ (∀ c ∈ search_claims
          [⟨"POL-001".toList, "OPEN".toList, ["water".toList, "damage".toList, "pol-001".toList]⟩,
           ⟨"POL-002".toList, "CLOSED".toList, ["car".toList, "accident".toList]⟩]
          (fun _ _ => 0) "water damage".toList,
          ∀ t ∈ pyWords "water damage".toList, t ∈ c.search_vector)
      ∧ (search_claims
          [⟨"POL-001".toList, "OPEN".toList, ["water".toList, "damage".toList, "pol-001".toList]⟩,
           ⟨"POL-002".toList, "CLOSED".toList, ["car".toList, "accident".toList]⟩]
          (fun _ _ => 0) "water damage".toList).Sorted
          (fun a b => (fun (_ _ : List (List Char)) => (0 : Int)) b.search_vector
              (pyWords "water damage".toList)
            ≤ (fun (_ _ : List (List Char)) => (0 : Int)) a.search_vector
              (pyWords "water damage".toList))) :=
  ⟨by decide,
    c10_search_claims
      [⟨"POL-001".toList, "OPEN".toList, ["water".toList, "damage".toList, "pol-001".toList]⟩,
       ⟨"POL-002".toList, "CLOSED".toList, ["car".toList, "accident".toList]⟩]
      (fun _ _ => 0) "water damage".toList (by decide)⟩
